import Mathlib

/-!
Verification of core routines of the VapourSynth runtime core
(`src/core/vscore.cpp`): the memory pool (`MemoryUse`), the
copy-on-write frame model (`VSFrameRef`/`VSPlaneData`), plugin function
registration and invocation (`VSPlugin`), the argument-string grammar
(`VSPluginFunction::parseArgString` / `getV3ArgString`), and the audio
format/frame arithmetic (`VSCore::queryAudioFormat`, `VSNode` audio
constructor).

Strings are modelled as `List Char` (`Str`); the C++ `split` helper with
`no_empties` (vscore.cpp `split`) extracts exactly the maximal nonempty
runs of non-delimiter characters, which is implemented here directly as
`splitNE`.
-/

/-- Strings as character lists. -/
abbrev Str := List Char

/-- vscore.cpp `isAlpha`: `(c >= 'a' && c <= 'z') || (c >= 'A' && c <= 'Z')`. -/
def isAlpha (c : Char) : Bool :=
  ('a' ≤ c && c ≤ 'z') || ('A' ≤ c && c ≤ 'Z')

/-- vscore.cpp `isAlphaNumUnderscore`. -/
def isAlphaNumUnderscore (c : Char) : Bool :=
  ('a' ≤ c && c ≤ 'z') || ('A' ≤ c && c ≤ 'Z') || ('0' ≤ c && c ≤ '9') || c = '_'

/-- vscore.cpp `isValidIdentifier`: nonempty, first char alphabetic, the
rest alphanumeric or underscore. -/
def isValidIdentifier (s : Str) : Bool :=
  match s with
  | [] => false
  | c :: rest => isAlpha c && rest.all isAlphaNumUnderscore

/-- Spec-side definition, following the spec's words only: `name` matches
the regular expression `[A-Za-z][A-Za-z0-9_]*`, i.e. it is nonempty, its
first character is in `A`–`Z` or `a`–`z`, and every remaining character is
a letter, a digit, or `_`. To be compared with the source's
`isValidIdentifier`. -/
def matchesIdentRegex (s : Str) : Prop :=
  s ≠ [] ∧
  (('A' ≤ s.head! ∧ s.head! ≤ 'Z') ∨ ('a' ≤ s.head! ∧ s.head! ≤ 'z')) ∧
  ∀ c ∈ s.tail, ('A' ≤ c ∧ c ≤ 'Z') ∨ ('a' ≤ c ∧ c ≤ 'z') ∨ ('0' ≤ c ∧ c ≤ '9') ∨ c = '_'

instance (s : Str) : Decidable (matchesIdentRegex s) := by
  unfold matchesIdentRegex; infer_instance

/-- Accumulator-based splitter: `splitAux d acc s` processes `s`, with
`acc` holding the current (reversed) token. Tokens are the maximal
nonempty runs of non-`d` characters, exactly what vscore.cpp's
`split(..., split1::no_empties)` produces. -/
def splitAux (d : Char) : List Char → List Char → List Str
  | acc, [] => if acc = [] then [] else [acc.reverse]
  | acc, c :: cs =>
    if c = d then
      (if acc = [] then splitAux d [] cs else acc.reverse :: splitAux d [] cs)
    else
      splitAux d (c :: acc) cs

/-- vscore.cpp `split(result, s, delims, split1::no_empties)` with a single
delimiter character. -/
def splitNE (d : Char) (s : Str) : List Str := splitAux d [] s

/-- Property value types, vscore.cpp / VapourSynth4.h `VSPropType`
(`ptUnset` is the "absent" marker returned by `propGetType`). -/
inductive VSPropType where
  | ptUnset
  | ptInt
  | ptFloat
  | ptData
  | ptFunction
  | ptVideoNode
  | ptAudioNode
  | ptVideoFrame
  | ptAudioFrame
deriving DecidableEq, Repr

/-- One parsed argument of a plugin function, vscore.cpp `FilterArgument`. -/
structure FilterArgument where
  name : Str
  type : VSPropType
  arr : Bool
  empty : Bool
  opt : Bool
deriving DecidableEq, Repr

/-- `VAPOURSYNTH3_API_MAJOR`, the legacy API generation. -/
def VAPOURSYNTH3_API_MAJOR : Nat := 3

/-- The `[]`-suffix stripping of `parseArgString`: if the type name has
length `> 2` and ends in `[]`, drop the suffix and flag an array. -/
def stripArray (t : Str) : Str × Bool :=
  if t.length > 2 ∧ t.drop (t.length - 2) = "[]".data then
    (t.take (t.length - 2), true)
  else
    (t, false)

/-- The type-name table of `parseArgString`: which names are recognized
depends on the API generation (`vnode`/`anode`/`vframe`/`aframe` only
after V3, `clip`/`frame` only in V3). -/
def parseTypeName (typeName : Str) (apiMajor : Nat) : Option VSPropType :=
  if typeName = "int".data then some .ptInt
  else if typeName = "float".data then some .ptFloat
  else if typeName = "data".data then some .ptData
  else if (typeName = "vnode".data ∧ apiMajor > VAPOURSYNTH3_API_MAJOR) ∨
          (apiMajor = VAPOURSYNTH3_API_MAJOR ∧ typeName = "clip".data) then some .ptVideoNode
  else if typeName = "anode".data ∧ apiMajor > VAPOURSYNTH3_API_MAJOR then some .ptAudioNode
  else if (typeName = "vframe".data ∧ apiMajor > VAPOURSYNTH3_API_MAJOR) ∨
          (apiMajor = VAPOURSYNTH3_API_MAJOR ∧ typeName = "frame".data) then some .ptVideoFrame
  else if typeName = "aframe".data ∧ apiMajor > VAPOURSYNTH3_API_MAJOR then some .ptAudioFrame
  else if typeName = "func".data then some .ptFunction
  else none

/-- The modifier loop of `parseArgString`: each part after the type name
must be `opt` or `empty`, duplicates are an error. -/
def parseModifiers (opt empty : Bool) : List Str → Option (Bool × Bool)
  | [] => some (opt, empty)
  | m :: ms =>
    if m = "opt".data then
      (if opt then none else parseModifiers true empty ms)
    else if m = "empty".data then
      (if empty then none else parseModifiers opt true ms)
    else none

/-- One iteration of the argument loop in `parseArgString`, applied to the
colon-separated parts of one argument spec. `none` plays the role of
`throw std::runtime_error`. -/
def parseArg (parts : List Str) (apiMajor : Nat) : Option FilterArgument :=
  match parts with
  | argName :: typeName0 :: mods =>
    match stripArray typeName0 with
    | (typeName, arr) =>
      match parseTypeName typeName apiMajor with
      | none => none
      | some ty =>
        match parseModifiers false false mods with
        | none => none
        | some (opt, empty) =>
          if ¬ isValidIdentifier argName then none
          else if empty ∧ ¬ arr then none
          else some ⟨argName, ty, arr, empty, opt⟩
  | _ => none

/-- Sequencing of the argument loop: the first failing argument spec makes
the whole parse fail (the C++ loop throws at the first bad spec). -/
def parseAllArgs (argList : List Str) (apiMajor : Nat) : Option (List FilterArgument) :=
  match argList with
  | [] => some []
  | a :: rest =>
    match parseArg (splitNE ':' a) apiMajor with
    | none => none
    | some fa =>
      match parseAllArgs rest apiMajor with
      | none => none
      | some fas => some (fa :: fas)

/-- vscore.cpp `VSPluginFunction::parseArgString`: split on `;` (dropping
empties), then parse each argument spec (split on `:`). -/
def parseArgString (s : Str) (apiMajor : Nat) : Option (List FilterArgument) :=
  parseAllArgs (splitNE ';' s) apiMajor

/-- The type-name emission in `VSPluginFunction::getV3ArgString`; the
`default: assert(false)` branch for audio types (and `ptUnset`) is
modelled as `none`. -/
def emitV3TypeName (t : VSPropType) : Option Str :=
  match t with
  | .ptInt => some "int".data
  | .ptFloat => some "float".data
  | .ptData => some "data".data
  | .ptVideoNode => some "clip".data
  | .ptVideoFrame => some "frame".data
  | .ptFunction => some "func".data
  | _ => none

/-- One argument's emission in `getV3ArgString`:
`name ++ ":" ++ type [++ "[]"] [++ ":opt"] [++ ":empty"] ++ ";"`. -/
def emitV3Arg (a : FilterArgument) : Option Str :=
  match emitV3TypeName a.type with
  | none => none
  | some t =>
    some (a.name ++ ':' :: t
      ++ (if a.arr then "[]".data else [])
      ++ (if a.opt then ":opt".data else [])
      ++ (if a.empty then ":empty".data else [])
      ++ [';'])

/-- vscore.cpp `VSPluginFunction::getV3ArgString`: concatenation of the
per-argument emissions; `none` when some argument cannot be emitted
(the function asserts the absence of audio types). -/
def getV3ArgString (args : List FilterArgument) : Option Str :=
  match args with
  | [] => some []
  | a :: rest =>
    match emitV3Arg a with
    | none => none
    | some s =>
      match getV3ArgString rest with
      | none => none
      | some t => some (s ++ t)

/-- vscore.cpp `VSPlugin::registerFunction`, with plugin state passed
explicitly: fails when the plugin is read-only, when the name is not a
valid identifier, when the name is already registered, or when parsing the
argument string or the return-type string throws (the `VSPluginFunction`
constructor parses both). -/
def registerFunction (readOnly : Bool) (existing : List Str)
    (name argStr retStr : Str) (apiMajor : Nat) : Bool :=
  if readOnly then false
  else if ¬ isValidIdentifier name then false
  else if name ∈ existing then false
  else
    match parseArgString argStr apiMajor with
    | none => false
    | some _ =>
      match parseArgString retStr apiMajor with
      | none => false
      | some _ => true

/-! ## Memory pool (`MemoryUse`) -/

/-- `SIZE_MAX` of the 64-bit target. -/
def sizeMax : Nat := 2 ^ 64 - 1

/-- `std::numeric_limits<int>::max()`. -/
def intMax : Int := 2147483647

/-- Modelled from the spec: `VS_AUDIO_FRAME_SAMPLES` (defined in the
public header, which is not part of the sources here) is "exactly 3072
samples per frame". -/
def VS_AUDIO_FRAME_SAMPLES : Nat := 3072

/-- The header prefixed to every pool allocation, vscore.cpp
`BlockHeader`: the byte size of the usable region and the large-page
flag. -/
structure BlockHeader where
  size : Nat
  large : Bool
deriving DecidableEq, Repr

/-- State of a `MemoryUse` pool: the freed-block multimap (kept as a
size-ordered list of `(size, block id)` pairs), the accounting counters,
the limit, and the large-page flag. -/
structure PoolState where
  buffers : List (Nat × Nat)
  unusedBufferSize : Nat
  used : Nat
  maxMemoryUse : Nat
  largePageEnabled : Bool
deriving DecidableEq, Repr

/-- vscore.cpp `MemoryUse::isGoodFit`: `actual <= requested + requested / 8`. -/
def isGoodFit (requested actual : Nat) : Bool :=
  actual ≤ requested + requested / 8

/-- vscore.cpp `MemoryUse::largePageSize` on the non-Windows path:
`2 * (1UL << 20)`. -/
def largePageSize : Nat := 2 * (1 <<< 20)

/-- vscore.cpp `MemoryUse::allocateLargePage`: `nullptr` when large pages
are disabled; otherwise round `alignment + bytes` up to the large-page
granularity, refuse when the result is not a good fit, and return a block
whose header records `allocBytes - alignment` with the large flag set.
(The model omits the possibility of `VirtualAlloc`/`malloc` returning
null, which the callers treat as fatal.) -/
def allocateLargePage (largePageEnabled : Bool) (alignment bytes : Nat) : Option BlockHeader :=
  if ¬ largePageEnabled then none
  else
    let granularity := largePageSize
    let allocBytes := (alignment + bytes + (granularity - 1)) / granularity * granularity
    if ¬ isGoodFit bytes (allocBytes - alignment) then none
    else some ⟨allocBytes - alignment, true⟩

/-- vscore.cpp `MemoryUse::allocateMemory`: try a large page first, fall
back to `vsh_aligned_malloc` with a header recording `bytes` and the large
flag clear. -/
def allocateMemory (largePageEnabled : Bool) (alignment bytes : Nat) : BlockHeader :=
  match allocateLargePage largePageEnabled alignment bytes with
  | some h => h
  | none => ⟨bytes, false⟩

/-- Which deallocator `MemoryUse::freeMemory` dispatches to, from the
block's header. -/
inductive FreeMethod where
  | viaLargePage
  | viaAlignedFree
deriving DecidableEq, Repr

/-- vscore.cpp `MemoryUse::freeMemory`: large blocks go to
`freeLargePage`, the rest to `vsh_aligned_free`. -/
def freeMemory (h : BlockHeader) : FreeMethod :=
  if h.large then .viaLargePage else .viaAlignedFree

/-- vscore.cpp `MemoryUse::setMaxMemoryUse`: the limit is updated only
when `bytes > 0 && (uint64_t)bytes <= SIZE_MAX`; otherwise it is left
unchanged. Returns the (new) current limit, which is what `getLimit`
reads. -/
def setMaxMemoryUse (bytes : Int) (maxMemoryUse : Nat) : Nat :=
  if 0 < bytes ∧ bytes.toNat ≤ sizeMax then bytes.toNat else maxMemoryUse

/-- Spec-side definition, following the spec's words only: a value
"clamped to `SIZE_MAX`" (negative values clamp to 0 through the unsigned
conversion). To be compared with what `setMaxMemoryUse` stores. -/
def specClampToSizeMax (bytes : Int) : Nat :=
  min bytes.toNat sizeMax

/-- vscore.cpp `MemoryUse::MemoryUse`: large pages are unconditionally
disabled ("Always disable large pages at the moment"), and the default
limit is 1 GiB, then raised to 4 GiB on 64-bit targets. -/
def mkMemoryUse : PoolState :=
  { buffers := []
    unusedBufferSize := 0
    used := 0
    maxMemoryUse := setMaxMemoryUse (4 * 1024 * 1024 * 1024) (setMaxMemoryUse (1024 * 1024 * 1024) 0)
    largePageEnabled := false }

/-- Result of `MemoryUse::allocBuffer`: either a recycled freed block
(identified by its recorded size and block id) or a fresh allocation with
the given header. -/
inductive AllocResult where
  | reused (size : Nat) (bufId : Nat)
  | fresh (header : BlockHeader)
deriving DecidableEq, Repr

/-- vscore.cpp `MemoryUse::allocBuffer`: `buffers.lower_bound(bytes)` on
the size-ordered freed-block map is the first entry with size `≥ bytes`;
if it exists and is a good fit it is recycled (and removed from the map,
with `unusedBufferSize` reduced), otherwise `allocateMemory` makes a fresh
block. -/
def allocBuffer (st : PoolState) (alignment bytes : Nat) : AllocResult × PoolState :=
  match st.buffers.find? (fun b => bytes ≤ b.1) with
  | some (sz, bufId) =>
    if isGoodFit bytes sz then
      (.reused sz bufId,
       { st with buffers := st.buffers.erase (sz, bufId),
                 unusedBufferSize := st.unusedBufferSize - sz })
    else
      (.fresh (allocateMemory st.largePageEnabled alignment bytes), st)
  | none => (.fresh (allocateMemory st.largePageEnabled alignment bytes), st)

/-- Ordered-multimap insertion (`std::multimap::emplace`): the new
`(size, block)` pair goes after all entries with size `≤` its own. -/
def mmapInsert (x : Nat × Nat) : List (Nat × Nat) → List (Nat × Nat)
  | [] => [x]
  | y :: ys => if y.1 ≤ x.1 then y :: mmapInsert x ys else x :: y :: ys

/-- The eviction loop of `MemoryUse::freeBuffer`: while the snapshot of
`used` plus `unusedBufferSize` exceeds the limit and the map is nonempty,
remove the freed block at a random index and return it to the OS. The
random draw of `std::uniform_int_distribution(0, buffers.size()-1)` is
modelled by an arbitrary choice stream, reduced into range with `%`; the
fuel is the map size, which bounds the trip count since every iteration
erases one entry. -/
def evictLoop (memoryUsed maxMemoryUse : Nat) (choices : Nat → Nat) :
    Nat → Nat → List (Nat × Nat) → Nat → List (Nat × Nat) × Nat
  | _, 0, bufs, unused => (bufs, unused)
  | step, fuel + 1, bufs, unused =>
    if h : memoryUsed + unused > maxMemoryUse ∧ bufs ≠ [] then
      evictLoop memoryUsed maxMemoryUse choices (step + 1) fuel
        (bufs.eraseIdx (choices step % bufs.length))
        (unused -
          (bufs.get ⟨choices step % bufs.length,
            Nat.mod_lt _ (List.length_pos.mpr h.2)⟩).1)
    else
      (bufs, unused)

/-- vscore.cpp `MemoryUse::freeBuffer`: a zero recorded size is the fatal
"memory corruption" path (`none`); otherwise the block is pushed into the
freed-block map, `unusedBufferSize` grows by its size, and the eviction
loop runs against the snapshot `memoryUsed = used`. -/
def freeBuffer (st : PoolState) (hdrSize bufId : Nat) (choices : Nat → Nat) :
    Option PoolState :=
  if hdrSize = 0 then none
  else
    let bufs := mmapInsert (hdrSize, bufId) st.buffers
    let unused := st.unusedBufferSize + hdrSize
    let res := evictLoop st.used st.maxMemoryUse choices 0 bufs.length bufs unused
    some { st with buffers := res.1, unusedBufferSize := res.2 }

/-- Total size of the freed blocks held in the map. -/
def sizeSum (l : List (Nat × Nat)) : Nat :=
  (l.map Prod.fst).sum

/-! ## Copy-on-write frames (`VSFrameRef` / `VSPlaneData`) -/

/-- The shared heap of `VSPlaneData` allocations: each allocation gets a
fresh id (standing for its `data` pointer, distinct for every live
allocation), and `rc` is each id's reference count (`VSPlaneData::refcount`;
0 = freed or never allocated). -/
structure PlaneHeap where
  nextId : Nat
  rc : Nat → Nat

/-- A video `VSFrameRef`: the number of planes and, for each plane slot,
the id of the backing `VSPlaneData`. -/
structure VFrame where
  numPlanes : Nat
  planes : Fin 3 → Nat

/-- `VSFrameRef::getReadPtr(plane)` for video frames returns
`data[plane]->data + guardSpace`; two frames return the same pointer for
their planes exactly when they reference the same `VSPlaneData`, so the
model returns the plane-data id. -/
def readPtr (f : VFrame) (p : Fin 3) : Nat :=
  f.planes p

/-- `VSPlaneData::unique()`: `refcount == 1`. -/
def planeUnique (h : PlaneHeap) (planeId : Nat) : Bool :=
  h.rc planeId = 1

/-- Bump one plane-data reference count (`VSPlaneData::add_ref`). -/
def addRef (h : PlaneHeap) (planeId : Nat) : PlaneHeap :=
  { h with rc := fun i => if i = planeId then h.rc i + 1 else h.rc i }

/-- vscore.cpp `VSFrameRef::VSFrameRef(const VSFrameRef &)` (the
copy/clone constructor behind `copyFrame`): every field is copied and each
plane's `VSPlaneData` is shared via `add_ref` (plane 0 always, planes 1
and 2 when present), so the copy references the same plane data. -/
def copyFrame (f : VFrame) (h : PlaneHeap) : VFrame × PlaneHeap :=
  let h1 := addRef h (f.planes 0)
  let h2 := if f.numPlanes = 3 then addRef (addRef h1 (f.planes 1)) (f.planes 2) else h1
  (⟨f.numPlanes, f.planes⟩, h2)

/-- vscore.cpp `VSFrameRef::getWritePtr` for video frames: when the
plane's data is not uniquely owned, clone it — a fresh pool allocation
with reference count 1 (`VSPlaneData` copy constructor), a `release()` of
the old data — and swap the clone in; then return the (new) plane
pointer. -/
def getWritePtr (f : VFrame) (p : Fin 3) (h : PlaneHeap) : VFrame × PlaneHeap :=
  if planeUnique h (f.planes p) then
    (f, h)
  else
    let freshId := h.nextId
    let old := f.planes p
    (⟨f.numPlanes, Function.update f.planes p freshId⟩,
     { nextId := freshId + 1
       rc := fun i => if i = freshId then 1 else if i = old then h.rc old - 1 else h.rc i })

/-- Well-formedness of a frame against the heap: every plane slot holds an
already-allocated id with a positive reference count (the frame owns a
reference). -/
def frameWF (f : VFrame) (h : PlaneHeap) : Prop :=
  ∀ p : Fin 3, f.planes p < h.nextId ∧ 0 < h.rc (f.planes p)

/-! ## Audio formats and audio frame count -/

/-- `VSSampleType stInteger`. -/
def stInteger : Int := 0

/-- `VSSampleType stFloat`. -/
def stFloat : Int := 1

/-- vscore.cpp `VSCore::isValidAudioFormat`: integer or float samples,
16–32 bits, float forces 32 bits, nonzero channel layout. -/
def isValidAudioFormat (sampleType bitsPerSample : Int) (channelLayout : Nat) : Bool :=
  if sampleType ≠ stInteger ∧ sampleType ≠ stFloat then false
  else if bitsPerSample < 16 ∨ bitsPerSample > 32 then false
  else if sampleType = stFloat ∧ bitsPerSample ≠ 32 then false
  else if channelLayout = 0 then false
  else true

/-- The `while (f.bytesPerSample * 8 < bitsPerSample) f.bytesPerSample <<= 1`
loop of `queryAudioFormat`, with explicit fuel: starting from `b ≥ 1` the
value doubles every trip, so `bits` units of fuel are more than the loop
can consume for any `bits ≥ 1`. -/
def bpsGo : Nat → Nat → Nat → Nat
  | 0, _, b => b
  | fuel + 1, bits, b => if b * 8 < bits then bpsGo fuel bits (b * 2) else b

/-- `f.bytesPerSample` as computed by `queryAudioFormat`: the doubling
loop started at 1. -/
def computeBytesPerSample (bits : Nat) : Nat :=
  bpsGo bits bits 1

/-- `std::bitset<64>(channelLayout).count()`, with explicit fuel 64 (the
bit width of `channelLayout`). -/
def popcountFuel : Nat → Nat → Nat
  | 0, _ => 0
  | fuel + 1, n => n % 2 + popcountFuel fuel (n / 2)

/-- The fields of `VSAudioFormat` that `queryAudioFormat` fills in. -/
structure AudioFormat where
  sampleType : Int
  bitsPerSample : Int
  bytesPerSample : Nat
  numChannels : Nat
  channelLayout : Nat
deriving DecidableEq, Repr

/-- vscore.cpp `VSCore::queryAudioFormat`: validate, then fill in the
format, computing `bytesPerSample` by the doubling loop and `numChannels`
as the `bitset` population count of the layout. -/
def queryAudioFormat (sampleType bitsPerSample : Int) (channelLayout : Nat) :
    Option AudioFormat :=
  if ¬ isValidAudioFormat sampleType bitsPerSample channelLayout then none
  else some
    { sampleType := sampleType
      bitsPerSample := bitsPerSample
      bytesPerSample := computeBytesPerSample bitsPerSample.toNat
      numChannels := popcountFuel 64 channelLayout
      channelLayout := channelLayout }

/-- The per-output audio bookkeeping of the audio `VSNode` constructor:
`isValidAudioInfo` (format validity, `numSamples ≥ 1`, `sampleRate ≥ 1`)
must pass, then `numSamples` may not exceed
`std::numeric_limits<int>::max() * VS_AUDIO_FRAME_SAMPLES`, and
`numFrames = (numSamples + VS_AUDIO_FRAME_SAMPLES - 1) / VS_AUDIO_FRAME_SAMPLES`
(`none` models `throw VSException`). -/
def audioNodeNumFrames (fmtValid : Bool) (numSamples sampleRate : Int) : Option Int :=
  if ¬ fmtValid then none
  else if numSamples < 1 ∨ sampleRate < 1 then none
  else if numSamples > intMax * (VS_AUDIO_FRAME_SAMPLES : Int) then none
  else some ((numSamples + (VS_AUDIO_FRAME_SAMPLES : Int) - 1) / (VS_AUDIO_FRAME_SAMPLES : Int))

/-! ## Invocation argument validation (`VSPlugin::invoke`) -/

/-- `std::set<std::string>::insert`: insertion ignoring an element
already present. The `std::set` is modelled by a duplicate-free list; its
(sorted) iteration order is irrelevant to the properties proved here. -/
def setInsert (x : Str) (l : List Str) : List Str :=
  if x ∈ l then l else l ++ [x]

/-- `remainingArgs.erase(fa.name)`. -/
def setErase (x : Str) (l : List Str) : List Str :=
  l.erase x

/-- The argument map passed to `invoke`: an ordered map from key to a
typed array, modelled by its keys with each array's type and length. -/
abbrev ArgMap := List (Str × VSPropType × Nat)

/-- `propGetType` plus the array lookup `args.find(fa.name)`: the type and
length of the value array stored under `key`, or `none` when the key is
absent (`ptUnset`). -/
def propGetTypeSize (args : ArgMap) (key : Str) : Option (VSPropType × Nat) :=
  (args.find? (fun e => e.1 = key)).map Prod.snd

/-- The distinct failure exits of `VSPlugin::invoke` before the filter
function is called. -/
inductive InvokeError where
  | compatInput
  | typeMismatch (name : Str)
  | tooManyValues (name : Str)
  | emptyNotAllowed (name : Str)
  | missingRequired (name : Str)
  | unknownArgs (keys : List Str)
deriving DecidableEq, Repr

/-- The per-declared-argument loop of `VSPlugin::invoke`: look each
declared argument up in `args`; present arguments are removed from
`remaining` and must match in type, respect scalar-vs-array, and be
nonempty unless the `empty` flag is set; absent arguments must be `opt`.
Returns the keys still unmatched. -/
def checkArgs (args : ArgMap) : List FilterArgument → List Str →
    Except InvokeError (List Str)
  | [], remaining => .ok remaining
  | fa :: rest, remaining =>
    match propGetTypeSize args fa.name with
    | some (propType, sz) =>
      let remaining' := setErase fa.name remaining
      if fa.type ≠ propType then .error (.typeMismatch fa.name)
      else if ¬ fa.arr ∧ sz > 1 then .error (.tooManyValues fa.name)
      else if ¬ fa.empty ∧ sz < 1 then .error (.emptyNotAllowed fa.name)
      else checkArgs args rest remaining'
    | none =>
      if ¬ fa.opt then .error (.missingRequired fa.name)
      else checkArgs args rest remaining

/-- vscore.cpp `VSPlugin::invoke`, for a function that was found in the
plugin's table: the compat-input check, then the declared-argument loop
over `remainingArgs` (the `std::set` of the keys of `args`), then the
rejection of all leftover (unknown) keys in one error. `.ok ()` is the
point at which the filter function `f.func` is invoked. -/
def invokeChecked (fargs : List FilterArgument) (compat argsHaveCompatNodes : Bool)
    (args : ArgMap) : Except InvokeError Unit :=
  if ¬ compat ∧ argsHaveCompatNodes then .error .compatInput
  else
    match checkArgs args fargs (args.foldl (fun acc e => setInsert e.1 acc) []) with
    | .error e => .error e
    | .ok remaining =>
      if remaining = [] then .ok () else .error (.unknownArgs remaining)

/-- The per-argument acceptance condition of the claim, as checked by the
loop in `invoke`: an absent argument must be optional; a present one must
match the declared type, may exceed one value only if array-declared, and
may be empty only with the `empty` flag. -/
def argAccepted (args : ArgMap) (fa : FilterArgument) : Prop :=
  match propGetTypeSize args fa.name with
  | none => fa.opt = true
  | some (t, sz) => fa.type = t ∧ (fa.arr = true ∨ sz ≤ 1) ∧ (fa.empty = true ∨ 1 ≤ sz)

instance (args : ArgMap) (fa : FilterArgument) : Decidable (argAccepted args fa) := by
  unfold argAccepted
  cases propGetTypeSize args fa.name with
  | none => infer_instance
  | some ts =>
    cases ts with
    | mk t sz => infer_instance

/-- `MemoryUse::getLimit`: reads the stored limit. -/
def getLimit (maxMemoryUse : Nat) : Nat := maxMemoryUse

/-- A `setLimit` call that the source accepts: `bytes > 0` and
`(uint64_t)bytes <= SIZE_MAX`. -/
def acceptedLimit (bytes : Int) : Bool :=
  decide (0 < bytes) && decide (bytes.toNat ≤ sizeMax)

/-- The limit after a sequence of `setMaxMemoryUse` calls. -/
def limitAfterCalls (init : Nat) (calls : List Int) : Nat :=
  calls.foldl (fun cur b => setMaxMemoryUse b cur) init

/-- Spec-side characterization: `P` is the smallest power of two with
`8 * P ≥ bits`. -/
def isSmallestPow2Bytes (bits P : Nat) : Prop :=
  (∃ k, P = 2 ^ k) ∧ bits ≤ 8 * P ∧ ∀ Q, (∃ k, Q = 2 ^ k) → bits ≤ 8 * Q → P ≤ Q

/-! ## Theorems -/

theorem popcountFuel_zero (fuel : Nat) : popcountFuel fuel 0 = 0 := by
  induction fuel with
  | zero => rfl
  | succ f ih => simp [popcountFuel, ih]

/-- `std::bitset<64>::count` of a value below `2 ^ 64` is the number of
ones among its binary digits. -/
theorem popcountFuel_eq_digit_count (fuel n : Nat) (h : n < 2 ^ fuel) :
    popcountFuel fuel n = (Nat.digits 2 n).count 1 := by
  induction fuel generalizing n with
  | zero =>
    have : n = 0 := by omega
    subst this
    simp [popcountFuel]
  | succ f ih =>
    rcases Nat.eq_zero_or_pos n with hn | hn
    · subst hn
      simp [popcountFuel_zero]
    · rw [Nat.digits_def' (by norm_num) hn]
      have hdiv : n / 2 < 2 ^ f := by
        have : 2 ^ (f + 1) = 2 ^ f * 2 := by rw [Nat.pow_succ]
        omega
      show n % 2 + popcountFuel f (n / 2) = _
      rw [ih (n / 2) hdiv, List.count_cons]
      rcases Nat.mod_two_eq_zero_or_one n with hm | hm <;> simp [hm] <;> omega

/-- The doubling loop of `queryAudioFormat`, evaluated on the valid
bit-depth range. -/
theorem computeBytesPerSample_val :
    ∀ bits, bits < 33 → 16 ≤ bits →
      computeBytesPerSample bits = if bits ≤ 16 then 2 else 4 := by
  decide

/-- C10: `queryAudioFormat` succeeds exactly on integer/float sample
types with 16–32 bits (float forcing 32) and a nonzero channel layout; on
success `numChannels` is the population count of the layout and
`bytesPerSample` the smallest power of two `P` with `8·P ≥ bitsPerSample`. -/
theorem c10_query_audio_format (sampleType bitsPerSample : Int) (channelLayout : Nat)
    (hcl : channelLayout < 2 ^ 64) :
    ((∃ fmt, queryAudioFormat sampleType bitsPerSample channelLayout = some fmt) ↔
      ((sampleType = stInteger ∨ sampleType = stFloat) ∧
        16 ≤ bitsPerSample ∧ bitsPerSample ≤ 32 ∧
        (sampleType = stFloat → bitsPerSample = 32) ∧ channelLayout ≠ 0)) ∧
    (∀ fmt, queryAudioFormat sampleType bitsPerSample channelLayout = some fmt →
      fmt.numChannels = (Nat.digits 2 channelLayout).count 1 ∧
      isSmallestPow2Bytes bitsPerSample.toNat fmt.bytesPerSample) := by
  have hvalid : isValidAudioFormat sampleType bitsPerSample channelLayout = true ↔
      ((sampleType = stInteger ∨ sampleType = stFloat) ∧
        16 ≤ bitsPerSample ∧ bitsPerSample ≤ 32 ∧
        (sampleType = stFloat → bitsPerSample = 32) ∧ channelLayout ≠ 0) := by
    simp only [isValidAudioFormat, stInteger, stFloat]
    split_ifs with h1 h2 h3 h4 <;> simp <;> omega
  constructor
  · rw [← hvalid]
    constructor
    · rintro ⟨fmt, hfmt⟩
      by_contra hv
      simp [queryAudioFormat, hv] at hfmt
    · intro hv
      refine ⟨AudioFormat.mk sampleType bitsPerSample
        (computeBytesPerSample bitsPerSample.toNat) (popcountFuel 64 channelLayout)
        channelLayout, ?_⟩
      simp [queryAudioFormat, hv]
  · intro fmt hfmt
    have hv : isValidAudioFormat sampleType bitsPerSample channelLayout = true := by
      by_contra hv
      simp [queryAudioFormat, hv] at hfmt
    obtain ⟨hst, h16, h32, hflo, hcl0⟩ := hvalid.mp hv
    have hfields : fmt = AudioFormat.mk sampleType bitsPerSample
        (computeBytesPerSample bitsPerSample.toNat) (popcountFuel 64 channelLayout)
        channelLayout := by
      simp [queryAudioFormat, hv] at hfmt
      exact hfmt.symm
    subst hfields
    constructor
    · exact popcountFuel_eq_digit_count 64 channelLayout hcl
    · have hb16 : 16 ≤ bitsPerSample.toNat := by omega
      have hb32 : bitsPerSample.toNat < 33 := by omega
      rw [computeBytesPerSample_val bitsPerSample.toNat hb32 hb16]
      by_cases hle : bitsPerSample.toNat ≤ 16
      · simp only [if_pos hle]
        refine ⟨⟨1, by norm_num⟩, by omega, fun Q hk hQ => ?_⟩
        omega
      · simp only [if_neg hle]
        refine ⟨⟨2, by norm_num⟩, by omega, fun Q hk hQ => ?_⟩
        obtain ⟨k, rfl⟩ := hk
        match k with
        | 0 => omega
        | 1 => omega
        | k + 2 =>
          have h1 : 1 ≤ 2 ^ k := Nat.one_le_two_pow
          have : 2 ^ (k + 2) = 2 ^ k * 4 := by ring
          omega

/-- Witness for C10: a 24-bit integer format over a two-channel layout is
accepted. -/
theorem c10_witness :
    ∃ fmt, queryAudioFormat stInteger 24 3 = some fmt :=
  (c10_query_audio_format stInteger 24 3 (by norm_num)).1.mpr (by decide)

theorem addRef_rc_ge (h : PlaneHeap) (i j : Nat) : h.rc j ≤ (addRef h i).rc j := by
  simp only [addRef]
  split <;> omega

theorem addRef_rc_self (h : PlaneHeap) (i : Nat) : (addRef h i).rc i = h.rc i + 1 := by
  simp [addRef]

theorem copyFrame_nextId (f : VFrame) (h : PlaneHeap) :
    (copyFrame f h).2.nextId = h.nextId := by
  simp only [copyFrame]
  split <;> rfl

/-- An id referenced by one of the three `add_ref`ed plane slots has
reference count at least two afterwards. -/
theorem triple_addRef_ge_two (h : PlaneHeap) (i0 i1 i2 j : Nat)
    (hj : j = i0 ∨ j = i1 ∨ j = i2) (hrc : 0 < h.rc j) :
    2 ≤ (addRef (addRef (addRef h i0) i1) i2).rc j := by
  rcases hj with rfl | rfl | rfl
  · have s1 := addRef_rc_self h j
    have s2 := addRef_rc_ge (addRef h j) i1 j
    have s3 := addRef_rc_ge (addRef (addRef h j) i1) i2 j
    omega
  · have s1 := addRef_rc_ge h i0 j
    have s2 := addRef_rc_self (addRef h i0) j
    have s3 := addRef_rc_ge (addRef (addRef h i0) j) i2 j
    omega
  · have s1 := addRef_rc_ge h i0 j
    have s2 := addRef_rc_ge (addRef h i0) i1 j
    have s3 := addRef_rc_self (addRef (addRef h i0) i1) j
    omega

/-- After the copy constructor, each plane shared between the original
and the copy has reference count at least two. -/
theorem copyFrame_rc_ge_two (f : VFrame) (h : PlaneHeap) (p : Fin 3)
    (hp : p.1 < f.numPlanes) (hnp : f.numPlanes = 1 ∨ f.numPlanes = 3)
    (hrc : 0 < h.rc (f.planes p)) :
    2 ≤ (copyFrame f h).2.rc (f.planes p) := by
  rcases hnp with h1 | h3
  · have hne : f.numPlanes ≠ 3 := by omega
    have hp1 : p.1 = 0 := by omega
    have hp0 : p = (0 : Fin 3) := Fin.ext (by simpa using hp1)
    subst hp0
    simp only [copyFrame, if_neg hne]
    rw [addRef_rc_self]
    omega
  · simp only [copyFrame, if_pos h3]
    have hj : f.planes p = f.planes 0 ∨ f.planes p = f.planes 1 ∨ f.planes p = f.planes 2 := by
      fin_cases p
      · exact Or.inl rfl
      · exact Or.inr (Or.inl rfl)
      · exact Or.inr (Or.inr rfl)
    exact triple_addRef_ge_two h (f.planes 0) (f.planes 1) (f.planes 2) (f.planes p) hj hrc

/-- C1: after the copy constructor, every plane read pointer of the copy
equals the original's (sharing); after `getWritePtr` on a valid plane of
the copy, that plane's data is uniquely owned, its read pointer differs
from the original's, and the original still holds its (unchanged) plane
data alive. -/
theorem c1_copy_on_write (f : VFrame) (h : PlaneHeap)
    (hwf : frameWF f h) (hnp : f.numPlanes = 1 ∨ f.numPlanes = 3) :
    (∀ p : Fin 3, readPtr (copyFrame f h).1 p = readPtr f p) ∧
    (∀ p : Fin 3, p.1 < f.numPlanes →
      planeUnique (getWritePtr (copyFrame f h).1 p (copyFrame f h).2).2
          (readPtr (getWritePtr (copyFrame f h).1 p (copyFrame f h).2).1 p) = true ∧
      readPtr (getWritePtr (copyFrame f h).1 p (copyFrame f h).2).1 p ≠ readPtr f p ∧
      0 < (getWritePtr (copyFrame f h).1 p (copyFrame f h).2).2.rc (readPtr f p)) := by
  constructor
  · intro p; rfl
  · intro p hp
    have hrc0 : 0 < h.rc (f.planes p) := (hwf p).2
    have hlt : f.planes p < h.nextId := (hwf p).1
    have h2rc : 2 ≤ (copyFrame f h).2.rc (f.planes p) := copyFrame_rc_ge_two f h p hp hnp hrc0
    have hnid : (copyFrame f h).2.nextId = h.nextId := copyFrame_nextId f h
    have hnu : ¬ (planeUnique (copyFrame f h).2 ((copyFrame f h).1.planes p) = true) := by
      show ¬ (planeUnique (copyFrame f h).2 (f.planes p) = true)
      simp only [planeUnique, decide_eq_true_eq]
      omega
    have hw : getWritePtr (copyFrame f h).1 p (copyFrame f h).2 =
        (⟨f.numPlanes, Function.update f.planes p (copyFrame f h).2.nextId⟩,
         { nextId := (copyFrame f h).2.nextId + 1
           rc := fun i => if i = (copyFrame f h).2.nextId then 1
             else if i = f.planes p then (copyFrame f h).2.rc (f.planes p) - 1
             else (copyFrame f h).2.rc i }) := by
      simp only [getWritePtr, if_neg hnu]
      rfl
    rw [hw]
    refine ⟨?_, ?_, ?_⟩
    · show planeUnique _ (Function.update f.planes p ((copyFrame f h).2.nextId) p) = true
      rw [Function.update_same]
      simp [planeUnique]
    · show Function.update f.planes p ((copyFrame f h).2.nextId) p ≠ f.planes p
      rw [Function.update_same, hnid]
      omega
    · show 0 < (if f.planes p = (copyFrame f h).2.nextId then 1
        else if f.planes p = f.planes p then (copyFrame f h).2.rc (f.planes p) - 1
        else (copyFrame f h).2.rc (f.planes p))
      rw [if_neg (by rw [hnid]; omega), if_pos rfl]
      omega

/-- Witness for C1: a three-plane frame whose planes are blocks 0, 1, 2,
each with a single owner, on a heap with three allocations. -/
theorem c1_witness :
    (∀ p : Fin 3,
      readPtr (copyFrame ⟨3, fun p => p.1⟩ ⟨3, fun i => if i < 3 then 1 else 0⟩).1 p =
        readPtr ⟨3, fun p => p.1⟩ p) ∧
    (∀ p : Fin 3, p.1 < (3 : Nat) →
      planeUnique (getWritePtr (copyFrame ⟨3, fun p => p.1⟩ ⟨3, fun i => if i < 3 then 1 else 0⟩).1
          p (copyFrame ⟨3, fun p => p.1⟩ ⟨3, fun i => if i < 3 then 1 else 0⟩).2).2
        (readPtr (getWritePtr (copyFrame ⟨3, fun p => p.1⟩ ⟨3, fun i => if i < 3 then 1 else 0⟩).1
          p (copyFrame ⟨3, fun p => p.1⟩ ⟨3, fun i => if i < 3 then 1 else 0⟩).2).1 p) = true ∧
      readPtr (getWritePtr (copyFrame ⟨3, fun p => p.1⟩ ⟨3, fun i => if i < 3 then 1 else 0⟩).1
          p (copyFrame ⟨3, fun p => p.1⟩ ⟨3, fun i => if i < 3 then 1 else 0⟩).2).1 p ≠
        readPtr ⟨3, fun p => p.1⟩ p ∧
      0 < (getWritePtr (copyFrame ⟨3, fun p => p.1⟩ ⟨3, fun i => if i < 3 then 1 else 0⟩).1
          p (copyFrame ⟨3, fun p => p.1⟩ ⟨3, fun i => if i < 3 then 1 else 0⟩).2).2.rc
        (readPtr ⟨3, fun p => p.1⟩ p)) :=
  c1_copy_on_write ⟨3, fun p => p.1⟩ ⟨3, fun i => if i < 3 then 1 else 0⟩
    (by intro p; exact ⟨p.isLt, by simp [p.isLt]⟩) (Or.inr rfl)

theorem allocateMemory_disabled (alignment bytes : Nat) :
    allocateMemory false alignment bytes = ⟨bytes, false⟩ := by
  simp [allocateMemory, allocateLargePage]

/-- On a size-sorted freed-block list, `lower_bound` (the first entry with
size `≥ bytes`) has minimal size among all eligible entries. -/
theorem find?_sorted_min (bytes : Nat) (l : List (Nat × Nat))
    (hs : l.Pairwise (fun a b => a.1 ≤ b.1)) (x : Nat × Nat)
    (hf : l.find? (fun b => bytes ≤ b.1) = some x) :
    ∀ b ∈ l, bytes ≤ b.1 → x.1 ≤ b.1 := by
  induction l with
  | nil => simp at hf
  | cons y ys ih =>
    by_cases hy : bytes ≤ y.1
    · rw [List.find?_cons_of_pos _ (by simpa using hy)] at hf
      obtain rfl : y = x := by simpa using hf
      intro b hb hbb
      rcases List.mem_cons.mp hb with rfl | hb
      · exact le_refl _
      · exact (List.pairwise_cons.mp hs).1 b hb
    · rw [List.find?_cons_of_neg _ (by simpa using hy)] at hf
      intro b hb hbb
      rcases List.mem_cons.mp hb with rfl | hb
      · exact absurd hbb hy
      · exact ih (List.pairwise_cons.mp hs).2 hf b hb hbb

/-- C2: `allocBuffer` recycles a freed block exactly when the smallest
freed block of size `≥ bytes` exists and is a good fit
(`size ≤ bytes + bytes/8`); the recycled block is that smallest one and is
removed from the map; otherwise a fresh block is allocated whose header
records `bytes` (and, large pages being disabled, the large flag clear). -/
theorem c2_alloc_buffer (st : PoolState) (alignment bytes : Nat)
    (hsorted : st.buffers.Pairwise (fun a b => a.1 ≤ b.1))
    (hlp : st.largePageEnabled = false) :
    (∀ sz bufId st', allocBuffer st alignment bytes = (.reused sz bufId, st') →
      (sz, bufId) ∈ st.buffers ∧ bytes ≤ sz ∧ sz ≤ bytes + bytes / 8 ∧
      (∀ b ∈ st.buffers, bytes ≤ b.1 → sz ≤ b.1) ∧
      st'.buffers = st.buffers.erase (sz, bufId) ∧
      st'.unusedBufferSize = st.unusedBufferSize - sz) ∧
    (∀ hdr st', allocBuffer st alignment bytes = (.fresh hdr, st') →
      hdr.size = bytes ∧ hdr.large = false ∧ st' = st ∧
      ∀ b ∈ st.buffers, bytes ≤ b.1 →
        (∀ b' ∈ st.buffers, bytes ≤ b'.1 → b.1 ≤ b'.1) →
        ¬ (b.1 ≤ bytes + bytes / 8)) := by
  cases hfind : st.buffers.find? (fun b => bytes ≤ b.1) with
  | none =>
    constructor
    · intro sz bufId st' heq
      simp [allocBuffer, hfind] at heq
    · intro hdr st' heq
      rw [allocBuffer, hfind] at heq
      rw [hlp, allocateMemory_disabled] at heq
      obtain ⟨rfl, rfl⟩ : BlockHeader.mk bytes false = hdr ∧ st = st' := by
        simpa using heq
      refine ⟨rfl, rfl, rfl, fun b hb hbb _ => ?_⟩
      have := List.find?_eq_none.mp hfind b hb
      simp [hbb] at this
  | some x =>
    obtain ⟨sz0, id0⟩ := x
    have hx_mem : (sz0, id0) ∈ st.buffers := List.mem_of_find?_eq_some hfind
    have hx_p : bytes ≤ sz0 := by
      have := List.find?_some hfind
      simpa using this
    have hx_min : ∀ b ∈ st.buffers, bytes ≤ b.1 → sz0 ≤ b.1 :=
      find?_sorted_min bytes st.buffers hsorted (sz0, id0) hfind
    by_cases hfit : isGoodFit bytes sz0 = true
    · constructor
      · intro sz bufId st' heq
        rw [allocBuffer, hfind] at heq
        dsimp only at heq
        rw [if_pos hfit] at heq
        obtain ⟨⟨rfl, rfl⟩, rfl⟩ :
            (sz0 = sz ∧ id0 = bufId) ∧
              ({ st with buffers := st.buffers.erase (sz0, id0),
                         unusedBufferSize := st.unusedBufferSize - sz0 } : PoolState) = st' := by
          simpa using heq
        have hfit' : sz0 ≤ bytes + bytes / 8 := by
          simpa [isGoodFit] using hfit
        exact ⟨hx_mem, hx_p, hfit', hx_min, rfl, rfl⟩
      · intro hdr st' heq
        rw [allocBuffer, hfind] at heq
        dsimp only at heq
        rw [if_pos hfit] at heq
        simp at heq
    · constructor
      · intro sz bufId st' heq
        rw [allocBuffer, hfind] at heq
        dsimp only at heq
        rw [if_neg hfit] at heq
        simp at heq
      · intro hdr st' heq
        rw [allocBuffer, hfind] at heq
        dsimp only at heq
        rw [if_neg hfit] at heq
        rw [hlp, allocateMemory_disabled] at heq
        obtain ⟨rfl, rfl⟩ : BlockHeader.mk bytes false = hdr ∧ st = st' := by
          simpa using heq
        refine ⟨rfl, rfl, rfl, fun b hb hbb hmin => ?_⟩
        have h1 : b.1 ≤ sz0 := hmin (sz0, id0) hx_mem hx_p
        have h2 : sz0 ≤ b.1 := hx_min b hb hbb
        have hbsz : b.1 = sz0 := le_antisymm h1 h2
        intro hgood
        apply hfit
        simp only [isGoodFit, decide_eq_true_eq]
        omega

/-- Witness for C2: a pool holding one 100-byte freed block recycles it
for a 96-byte request (a good fit: `100 ≤ 96 + 12`). -/
theorem c2_witness :
    ((100 : Nat), (7 : Nat)) ∈ [((100 : Nat), (7 : Nat))] ∧ 96 ≤ 100 ∧
      (100 : Nat) ≤ 96 + 96 / 8 ∧
      (∀ b ∈ [((100 : Nat), (7 : Nat))], 96 ≤ b.1 → 100 ≤ b.1) ∧
      (PoolState.mk [] 0 0 1000 false).buffers = [((100 : Nat), (7 : Nat))].erase (100, 7) ∧
      (PoolState.mk [] 0 0 1000 false).unusedBufferSize = 100 - 100 :=
  (c2_alloc_buffer ⟨[(100, 7)], 100, 0, 1000, false⟩ 64 96 (by decide) rfl).1
    100 7 ⟨[], 0, 0, 1000, false⟩ (by decide)

theorem sizeSum_eraseIdx (l : List (Nat × Nat)) (i : Nat) (h : i < l.length) :
    sizeSum (l.eraseIdx i) + (l.get ⟨i, h⟩).1 = sizeSum l := by
  induction l generalizing i with
  | nil => simp at h
  | cons x xs ih =>
    cases i with
    | zero => simp [sizeSum, List.eraseIdx]; omega
    | succ j =>
      have hj : j < xs.length := by simpa using h
      have := ih j hj
      simp only [List.eraseIdx, sizeSum, List.map_cons, List.sum_cons, List.get_cons_succ]
      simp only [sizeSum] at this
      omega

theorem sizeSum_mmapInsert (x : Nat × Nat) (l : List (Nat × Nat)) :
    sizeSum (mmapInsert x l) = x.1 + sizeSum l := by
  induction l with
  | nil => simp [mmapInsert, sizeSum]
  | cons y ys ih =>
    simp only [mmapInsert]
    split
    · simp only [sizeSum, List.map_cons, List.sum_cons] at *
      omega
    · simp only [sizeSum, List.map_cons, List.sum_cons]

/-- The eviction loop terminates (within fuel `≥` the map size) with
either an empty map or the snapshot usage plus the unused total within the
limit. -/
theorem evictLoop_post (memoryUsed maxMemoryUse : Nat) (choices : Nat → Nat) :
    ∀ fuel step bufs unused, bufs.length ≤ fuel →
      (evictLoop memoryUsed maxMemoryUse choices step fuel bufs unused).1 = [] ∨
      memoryUsed + (evictLoop memoryUsed maxMemoryUse choices step fuel bufs unused).2 ≤
        maxMemoryUse := by
  intro fuel
  induction fuel with
  | zero =>
    intro step bufs unused hlen
    have : bufs = [] := List.eq_nil_of_length_eq_zero (by omega)
    subst this
    exact Or.inl rfl
  | succ f ih =>
    intro step bufs unused hlen
    rw [evictLoop]
    split
    · next hcond =>
      apply ih
      have hbl : 0 < bufs.length := List.length_pos.mpr hcond.2
      have := List.length_eraseIdx_add_one (l := bufs) (i := choices step % bufs.length)
        (Nat.mod_lt _ hbl)
      omega
    · next hcond =>
      rcases not_and_or.mp hcond with hc | hc
      · exact Or.inr (by omega)
      · exact Or.inl (not_not.mp hc)

/-- The eviction loop keeps `unusedBufferSize` equal to the total size of
the freed blocks in the map. -/
theorem evictLoop_sum (memoryUsed maxMemoryUse : Nat) (choices : Nat → Nat) :
    ∀ fuel step bufs unused, unused = sizeSum bufs →
      (evictLoop memoryUsed maxMemoryUse choices step fuel bufs unused).2 =
        sizeSum (evictLoop memoryUsed maxMemoryUse choices step fuel bufs unused).1 := by
  intro fuel
  induction fuel with
  | zero => intro step bufs unused hsum; simpa [evictLoop] using hsum
  | succ f ih =>
    intro step bufs unused hsum
    rw [evictLoop]
    split
    · next hcond =>
      apply ih
      have hbl : 0 < bufs.length := List.length_pos.mpr hcond.2
      have hi : choices step % bufs.length < bufs.length := Nat.mod_lt _ hbl
      have herase := sizeSum_eraseIdx bufs (choices step % bufs.length) hi
      have hmem : (bufs.get ⟨choices step % bufs.length, hi⟩) ∈ bufs := List.get_mem _ _ _
      omega
    · next => simpa using hsum

/-- C3: `freeBuffer` pushes the freed block into the map (raising
`unusedBufferSize` by its recorded size, which the loop then keeps equal
to the map's total), and evicts arbitrarily chosen freed blocks until
either the map is empty or `used + unusedBufferSize ≤ maxMemoryUse` —
for every eviction-choice stream, covering every choice the uniform
random draw can make. -/
theorem c3_free_buffer (st : PoolState) (hdrSize bufId : Nat) (choices : Nat → Nat)
    (hinv : st.unusedBufferSize = sizeSum st.buffers) :
    (hdrSize = 0 → freeBuffer st hdrSize bufId choices = none) ∧
    (∀ st', freeBuffer st hdrSize bufId choices = some st' →
      st'.used = st.used ∧ st'.maxMemoryUse = st.maxMemoryUse ∧
      st'.unusedBufferSize = sizeSum st'.buffers ∧
      (st'.buffers = [] ∨ st.used + st'.unusedBufferSize ≤ st.maxMemoryUse)) := by
  constructor
  · intro h0
    simp [freeBuffer, h0]
  · intro st' heq
    by_cases h0 : hdrSize = 0
    · simp [freeBuffer, h0] at heq
    · rw [freeBuffer, if_neg h0] at heq
      obtain rfl :
          ({ st with
              buffers := (evictLoop st.used st.maxMemoryUse choices 0
                (mmapInsert (hdrSize, bufId) st.buffers).length
                (mmapInsert (hdrSize, bufId) st.buffers)
                (st.unusedBufferSize + hdrSize)).1,
              unusedBufferSize := (evictLoop st.used st.maxMemoryUse choices 0
                (mmapInsert (hdrSize, bufId) st.buffers).length
                (mmapInsert (hdrSize, bufId) st.buffers)
                (st.unusedBufferSize + hdrSize)).2 } : PoolState) = st' := by
        simpa using heq
      refine ⟨rfl, rfl, ?_, ?_⟩
      · apply evictLoop_sum
        rw [sizeSum_mmapInsert]
        omega
      · exact evictLoop_post st.used st.maxMemoryUse choices _ 0 _ _ (le_refl _)

/-- Witness for C3: freeing a 20-byte block into a pool at `used = 100`
with limit 105 and one 10-byte freed block triggers eviction (choice
stream constantly 0) until the freed-block map is empty. -/
theorem c3_witness :
    ((PoolState.mk [] 0 100 105 false).used = 100 ∧
      (PoolState.mk [] 0 100 105 false).maxMemoryUse = 105 ∧
      (PoolState.mk [] 0 100 105 false).unusedBufferSize =
        sizeSum (PoolState.mk [] 0 100 105 false).buffers ∧
      ((PoolState.mk [] 0 100 105 false).buffers = [] ∨
        100 + (PoolState.mk [] 0 100 105 false).unusedBufferSize ≤ 105)) :=
  (c3_free_buffer ⟨[(10, 1)], 10, 100, 105, false⟩ 20 2 (fun _ => 0) (by decide)).2
    ⟨[], 0, 100, 105, false⟩ (by decide)

theorem mem_setInsert (k x : Str) (l : List Str) :
    k ∈ setInsert x l ↔ k = x ∨ k ∈ l := by
  simp only [setInsert]
  split
  · next hx =>
    constructor
    · exact fun h => Or.inr h
    · intro h
      rcases h with rfl | h
      · exact hx
      · exact h
  · next hx =>
    simp only [List.mem_append, List.mem_singleton]
    tauto

theorem nodup_setInsert (x : Str) (l : List Str) (h : l.Nodup) :
    (setInsert x l).Nodup := by
  simp only [setInsert]
  split
  · exact h
  · next hx => simp [List.nodup_append, h, hx]

/-- The initial `remainingArgs` set holds exactly the keys of `args`. -/
theorem mem_keysFold (args : ArgMap) :
    ∀ acc k, k ∈ args.foldl (fun acc e => setInsert e.1 acc) acc ↔
      k ∈ acc ∨ ∃ e ∈ args, e.1 = k := by
  induction args with
  | nil =>
    intro acc k
    simp only [List.foldl_nil]
    constructor
    · exact fun h => Or.inl h
    · rintro (h | ⟨e, he, _⟩)
      · exact h
      · cases he
  | cons e rest ih =>
    intro acc k
    simp only [List.foldl_cons]
    rw [ih, mem_setInsert]
    simp only [List.mem_cons]
    constructor
    · rintro ((rfl | h) | ⟨e', he', rfl⟩)
      · exact Or.inr ⟨e, Or.inl rfl, rfl⟩
      · exact Or.inl h
      · exact Or.inr ⟨e', Or.inr he', rfl⟩
    · rintro (h | ⟨e', (rfl | he'), rfl⟩)
      · exact Or.inl (Or.inr h)
      · exact Or.inl (Or.inl rfl)
      · exact Or.inr ⟨e', he', rfl⟩

theorem nodup_keysFold (args : ArgMap) :
    ∀ acc, acc.Nodup → (args.foldl (fun acc e => setInsert e.1 acc) acc).Nodup := by
  induction args with
  | nil => exact fun acc h => h
  | cons e rest ih =>
    intro acc hacc
    exact ih _ (nodup_setInsert e.1 acc hacc)

/-- Unfolding equation for the argument loop, present-argument case. -/
theorem checkArgs_cons_some (args : ArgMap) (fa : FilterArgument) (rest : List FilterArgument)
    (remaining : List Str) (t : VSPropType) (sz : Nat)
    (hlook : propGetTypeSize args fa.name = some (t, sz)) :
    checkArgs args (fa :: rest) remaining =
      (if fa.type ≠ t then .error (.typeMismatch fa.name)
       else if ¬ fa.arr ∧ sz > 1 then .error (.tooManyValues fa.name)
       else if ¬ fa.empty ∧ sz < 1 then .error (.emptyNotAllowed fa.name)
       else checkArgs args rest (setErase fa.name remaining)) := by
  rw [show checkArgs args (fa :: rest) remaining =
    (match propGetTypeSize args fa.name with
     | some (propType, sz) =>
       if fa.type ≠ propType then .error (.typeMismatch fa.name)
       else if ¬ fa.arr ∧ sz > 1 then .error (.tooManyValues fa.name)
       else if ¬ fa.empty ∧ sz < 1 then .error (.emptyNotAllowed fa.name)
       else checkArgs args rest (setErase fa.name remaining)
     | none =>
       if ¬ fa.opt then .error (.missingRequired fa.name)
       else checkArgs args rest remaining) from rfl, hlook]

/-- Unfolding equation for the argument loop, absent-argument case. -/
theorem checkArgs_cons_none (args : ArgMap) (fa : FilterArgument) (rest : List FilterArgument)
    (remaining : List Str)
    (hlook : propGetTypeSize args fa.name = none) :
    checkArgs args (fa :: rest) remaining =
      (if ¬ fa.opt then .error (.missingRequired fa.name)
       else checkArgs args rest remaining) := by
  rw [show checkArgs args (fa :: rest) remaining =
    (match propGetTypeSize args fa.name with
     | some (propType, sz) =>
       if fa.type ≠ propType then .error (.typeMismatch fa.name)
       else if ¬ fa.arr ∧ sz > 1 then .error (.tooManyValues fa.name)
       else if ¬ fa.empty ∧ sz < 1 then .error (.emptyNotAllowed fa.name)
       else checkArgs args rest (setErase fa.name remaining)
     | none =>
       if ¬ fa.opt then .error (.missingRequired fa.name)
       else checkArgs args rest remaining) from rfl, hlook]

/-- The argument loop finishes without an error exactly when every
declared argument is acceptable. -/
theorem checkArgs_ok_iff (args : ArgMap) (declared : List FilterArgument) :
    ∀ remaining, (∃ r, checkArgs args declared remaining = .ok r) ↔
      ∀ fa ∈ declared, argAccepted args fa := by
  induction declared with
  | nil =>
    intro remaining
    exact ⟨fun _ fa hfa => (by cases hfa), fun _ => ⟨remaining, rfl⟩⟩
  | cons fa rest ih =>
    intro remaining
    simp only [List.forall_mem_cons]
    cases hlook : propGetTypeSize args fa.name with
    | some ts =>
      obtain ⟨t, sz⟩ := ts
      rw [checkArgs_cons_some args fa rest remaining t sz hlook]
      have hacc : argAccepted args fa ↔
          (fa.type = t ∧ (fa.arr = true ∨ sz ≤ 1) ∧ (fa.empty = true ∨ 1 ≤ sz)) := by
        simp [argAccepted, hlook]
      rw [hacc]
      by_cases h1 : fa.type = t
      · rw [if_neg (by simpa using h1)]
        by_cases h2 : ¬ fa.arr = true ∧ sz > 1
        · rw [if_pos h2]
          constructor
          · rintro ⟨r, hr⟩; cases hr
          · rintro ⟨⟨_, hc, _⟩, _⟩
            exfalso
            rcases hc with hc | hc
            · exact h2.1 hc
            · omega
        · rw [if_neg h2]
          by_cases h3 : ¬ fa.empty = true ∧ sz < 1
          · rw [if_pos h3]
            constructor
            · rintro ⟨r, hr⟩; cases hr
            · rintro ⟨⟨_, _, hc⟩, _⟩
              exfalso
              rcases hc with hc | hc
              · exact h3.1 hc
              · omega
          · rw [if_neg h3]
            rw [ih]
            push_neg at h2 h3
            constructor
            · intro h
              refine ⟨⟨h1, ?_, ?_⟩, h⟩
              · by_cases ha : fa.arr = true
                · exact Or.inl ha
                · exact Or.inr (by have := h2 (by simpa using ha); omega)
              · by_cases he : fa.empty = true
                · exact Or.inl he
                · exact Or.inr (by have := h3 (by simpa using he); omega)
            · exact fun h => h.2
      · rw [if_pos (show fa.type ≠ t from h1)]
        constructor
        · rintro ⟨r, hr⟩; cases hr
        · rintro ⟨⟨hc, _⟩, _⟩; exact absurd hc h1
    | none =>
      rw [checkArgs_cons_none args fa rest remaining hlook]
      have hacc : argAccepted args fa ↔ fa.opt = true := by
        simp [argAccepted, hlook]
      rw [hacc]
      by_cases h1 : fa.opt = true
      · rw [if_neg (by simpa using h1), ih]
        exact ⟨fun h => ⟨h1, h⟩, fun h => h.2⟩
      · rw [if_pos (by simpa using h1)]
        constructor
        · rintro ⟨r, hr⟩; cases hr
        · rintro ⟨hc, _⟩; exact absurd hc h1

/-- When the argument loop succeeds, the returned leftover set holds
exactly the members of `remaining` matched by no present declared
argument. -/
theorem checkArgs_ok_mem (args : ArgMap) (declared : List FilterArgument) :
    ∀ remaining r, remaining.Nodup → checkArgs args declared remaining = .ok r →
      r.Nodup ∧ ∀ k, k ∈ r ↔ (k ∈ remaining ∧
        ∀ fa ∈ declared, fa.name = k → propGetTypeSize args fa.name = none) := by
  induction declared with
  | nil =>
    intro remaining r hnd hr
    obtain rfl : remaining = r := by simpa [checkArgs] using hr
    exact ⟨hnd, fun k => ⟨fun h => ⟨h, fun fa hfa => by cases hfa⟩, fun h => h.1⟩⟩
  | cons fa rest ih =>
    intro remaining r hnd hr
    cases hlook : propGetTypeSize args fa.name with
    | some ts =>
      obtain ⟨t, sz⟩ := ts
      rw [checkArgs_cons_some args fa rest remaining t sz hlook] at hr
      by_cases h1 : fa.type = t
      · rw [if_neg (by simpa using h1)] at hr
        by_cases h2 : ¬ fa.arr = true ∧ sz > 1
        · rw [if_pos h2] at hr; cases hr
        · rw [if_neg h2] at hr
          by_cases h3 : ¬ fa.empty = true ∧ sz < 1
          · rw [if_pos h3] at hr; cases hr
          · rw [if_neg h3] at hr
            have hnd' : (setErase fa.name remaining).Nodup := List.Nodup.erase _ hnd
            obtain ⟨hrnd, hmem⟩ := ih (setErase fa.name remaining) r hnd' hr
            refine ⟨hrnd, fun k => ?_⟩
            rw [hmem k]
            simp only [List.forall_mem_cons]
            constructor
            · rintro ⟨hkr, hrest⟩
              have hke : k ≠ fa.name ∧ k ∈ remaining := by
                simpa [setErase] using (List.Nodup.mem_erase_iff hnd).mp hkr
              exact ⟨hke.2, fun heq => absurd heq.symm hke.1, hrest⟩
            · rintro ⟨hkr, hfa, hrest⟩
              refine ⟨?_, hrest⟩
              show k ∈ remaining.erase fa.name
              rw [List.Nodup.mem_erase_iff hnd]
              refine ⟨fun heq => ?_, hkr⟩
              subst heq
              have := hfa rfl
              rw [this] at hlook
              cases hlook
      · rw [if_pos (show fa.type ≠ t from h1)] at hr; cases hr
    | none =>
      rw [checkArgs_cons_none args fa rest remaining hlook] at hr
      by_cases h1 : fa.opt = true
      · rw [if_neg (by simpa using h1)] at hr
        obtain ⟨hrnd, hmem⟩ := ih remaining r hnd hr
        refine ⟨hrnd, fun k => ?_⟩
        rw [hmem k]
        simp only [List.forall_mem_cons]
        constructor
        · rintro ⟨hkr, hrest⟩
          exact ⟨hkr, fun _ => hlook, hrest⟩
        · rintro ⟨hkr, _, hrest⟩
          exact ⟨hkr, hrest⟩
      · rw [if_pos (by simpa using h1)] at hr; cases hr

/-- The argument loop never raises the unknown-keys error (only the final
leftover check does). -/
theorem checkArgs_no_unknown (args : ArgMap) (declared : List FilterArgument) :
    ∀ remaining ks, checkArgs args declared remaining ≠ .error (.unknownArgs ks) := by
  induction declared with
  | nil => intro remaining ks h; cases h
  | cons fa rest ih =>
    intro remaining ks h
    cases hlook : propGetTypeSize args fa.name with
    | some ts =>
      obtain ⟨t, sz⟩ := ts
      rw [checkArgs_cons_some args fa rest remaining t sz hlook] at h
      by_cases h1 : fa.type = t
      · rw [if_neg (by simpa using h1)] at h
        by_cases h2 : ¬ fa.arr = true ∧ sz > 1
        · rw [if_pos h2] at h; cases h
        · rw [if_neg h2] at h
          by_cases h3 : ¬ fa.empty = true ∧ sz < 1
          · rw [if_pos h3] at h; cases h
          · rw [if_neg h3] at h
            exact ih _ ks h
      · rw [if_pos (show fa.type ≠ t from h1)] at h; cases h
    | none =>
      rw [checkArgs_cons_none args fa rest remaining hlook] at h
      by_cases h1 : fa.opt = true
      · rw [if_neg (by simpa using h1)] at h
        exact ih _ ks h
      · rw [if_pos (by simpa using h1)] at h; cases h

/-- A key present in the map has a present lookup. -/
theorem propGetTypeSize_isSome (args : ArgMap) (k : Str)
    (h : ∃ e ∈ args, e.1 = k) : propGetTypeSize args k ≠ none := by
  obtain ⟨e, he, rfl⟩ := h
  intro hnone
  simp only [propGetTypeSize] at hnone
  cases hfind : List.find? (fun x => x.1 = e.1) args with
  | none =>
    have := List.find?_eq_none.mp hfind e he
    simp at this
  | some v =>
    rw [hfind] at hnone
    cases hnone

/-- C4: with the function found and the compat check passed, `invoke`
reaches the filter function exactly when every declared argument is
acceptable (present or `opt`; matching type; at most one value unless
array-declared; nonempty unless flagged `empty`) and every supplied key is
declared; when it instead fails with the unknown-keys error, that single
error lists exactly the supplied keys that are not declared. -/
theorem c4_invoke_validation (fargs : List FilterArgument) (compat argsHaveCompatNodes : Bool)
    (args : ArgMap) (hcompat : compat = true ∨ argsHaveCompatNodes = false) :
    (invokeChecked fargs compat argsHaveCompatNodes args = .ok () ↔
      ((∀ fa ∈ fargs, argAccepted args fa) ∧
        ∀ e ∈ args, ∃ fa ∈ fargs, fa.name = e.1)) ∧
    (∀ ks, invokeChecked fargs compat argsHaveCompatNodes args = .error (.unknownArgs ks) →
      ∀ k, k ∈ ks ↔ ((∃ e ∈ args, e.1 = k) ∧ ¬ ∃ fa ∈ fargs, fa.name = k)) := by
  have hcompat' : ¬ (¬ compat = true ∧ argsHaveCompatNodes = true) := by
    rcases hcompat with h | h <;> simp [h]
  have hinit_nodup : (args.foldl (fun acc e => setInsert e.1 acc) []).Nodup :=
    nodup_keysFold args [] List.nodup_nil
  have hinit_mem : ∀ k, k ∈ args.foldl (fun acc e => setInsert e.1 acc) [] ↔
      ∃ e ∈ args, e.1 = k := by
    intro k
    rw [mem_keysFold]
    constructor
    · rintro (h | h)
      · cases h
      · exact h
    · exact fun h => Or.inr h
  constructor
  · rw [invokeChecked, if_neg hcompat']
    cases hchk : checkArgs args fargs (args.foldl (fun acc e => setInsert e.1 acc) []) with
    | error e =>
      simp only
      constructor
      · intro h; cases h
      · intro ⟨hacc, _⟩
        have := (checkArgs_ok_iff args fargs
          (args.foldl (fun acc e => setInsert e.1 acc) [])).mpr hacc
        rw [hchk] at this
        obtain ⟨r, hr⟩ := this
        cases hr
    | ok remaining =>
      simp only
      obtain ⟨hrnd, hrmem⟩ := checkArgs_ok_mem args fargs _ remaining hinit_nodup hchk
      split_ifs with hre
      · subst hre
        simp only [true_iff]
        constructor
        · exact (checkArgs_ok_iff args fargs _).mp ⟨[], hchk⟩
        · intro e he
          by_contra hnone
          push_neg at hnone
          have hk : e.1 ∈ ([] : List Str) := by
            rw [hrmem e.1]
            refine ⟨(hinit_mem e.1).mpr ⟨e, he, rfl⟩, fun fa hfa heq => ?_⟩
            exact absurd heq (hnone fa hfa)
          cases hk
      · constructor
        · intro h; cases h
        · rintro ⟨hacc, hdecl⟩
          exfalso
          apply hre
          by_contra hne
          obtain ⟨k, hk⟩ := List.exists_mem_of_ne_nil remaining hne
          rw [hrmem k] at hk
          obtain ⟨hkin, hknone⟩ := hk
          obtain ⟨e, he, rfl⟩ := (hinit_mem k).mp hkin
          obtain ⟨fa, hfa, hfaeq⟩ := hdecl e he
          have := hknone fa hfa hfaeq
          exact propGetTypeSize_isSome args e.1 ⟨e, he, rfl⟩ (by rw [← hfaeq]; exact this)
  · intro ks hks
    rw [invokeChecked, if_neg hcompat'] at hks
    cases hchk : checkArgs args fargs (args.foldl (fun acc e => setInsert e.1 acc) []) with
    | error e =>
      exfalso
      rw [hchk] at hks
      simp only at hks
      have he : e = .unknownArgs ks := by simpa using hks
      rw [he] at hchk
      exact checkArgs_no_unknown args fargs _ ks hchk
    | ok remaining =>
      rw [hchk] at hks
      simp only at hks
      by_cases hre : remaining = []
      · rw [if_pos hre] at hks
        cases hks
      · rw [if_neg hre] at hks
        have hkseq : remaining = ks := by simpa using hks
        subst hkseq
        obtain ⟨hrnd, hrmem⟩ := checkArgs_ok_mem args fargs _ remaining hinit_nodup hchk
        intro k
        rw [hrmem k, hinit_mem k]
        constructor
        · rintro ⟨hke, hnone⟩
          refine ⟨hke, ?_⟩
          rintro ⟨fa, hfa, hfaeq⟩
          have := hnone fa hfa hfaeq
          exact propGetTypeSize_isSome args k hke (by rw [← hfaeq]; exact this)
        · rintro ⟨hke, hnod⟩
          refine ⟨hke, fun fa hfa heq => ?_⟩
          exact absurd ⟨fa, hfa, heq⟩ hnod

/-- Witness for C4: a single declared `clip` argument supplied with one
video-node value is accepted and the filter function is reached. -/
theorem c4_witness :
    invokeChecked [⟨"clip".data, .ptVideoNode, false, false, false⟩] false false
      [("clip".data, .ptVideoNode, 1)] = .ok () :=
  (c4_invoke_validation [⟨"clip".data, .ptVideoNode, false, false, false⟩] false false
      [("clip".data, .ptVideoNode, 1)] (Or.inr rfl)).1.mpr (by decide)

theorem splitAux_append (d : Char) (t : Str) :
    ∀ acc rest, (∀ c ∈ t, c ≠ d) →
      splitAux d acc (t ++ rest) = splitAux d (t.reverse ++ acc) rest := by
  induction t with
  | nil =>
    intro acc rest _
    simp
  | cons c t' ih =>
    intro acc rest hc
    have hcd : ¬ (c = d) := hc c (List.mem_cons_self c t')
    show splitAux d acc (c :: (t' ++ rest)) = _
    simp only [splitAux]
    rw [if_neg hcd]
    rw [ih (c :: acc) rest (fun x hx => hc x (List.mem_cons_of_mem c hx))]
    simp [List.reverse_cons, List.append_assoc]

/-- Splitting off one complete token followed by a delimiter. -/
theorem splitNE_token_cons (d : Char) (t rest : Str) (ht : t ≠ [])
    (hc : ∀ c ∈ t, c ≠ d) :
    splitNE d (t ++ d :: rest) = t :: splitNE d rest := by
  unfold splitNE
  rw [splitAux_append d t [] (d :: rest) hc, List.append_nil]
  simp only [splitAux]
  rw [if_pos trivial, if_neg (by simpa using ht), List.reverse_reverse]

/-- A single delimiter-free token splits to itself. -/
theorem splitNE_token_single (d : Char) (t : Str) (ht : t ≠ [])
    (hc : ∀ c ∈ t, c ≠ d) :
    splitNE d t = [t] := by
  unfold splitNE
  conv_lhs => rw [show t = t ++ [] from (List.append_nil t).symm]
  rw [splitAux_append d t [] [] hc, List.append_nil]
  simp only [splitAux]
  rw [if_neg (by simpa using ht), List.reverse_reverse]

theorem alpha_anu (c : Char) (h : isAlpha c = true) : isAlphaNumUnderscore c = true := by
  simp only [isAlpha, Bool.or_eq_true, Bool.and_eq_true, decide_eq_true_eq] at h
  simp only [isAlphaNumUnderscore, Bool.or_eq_true, Bool.and_eq_true, decide_eq_true_eq]
  tauto

theorem anu_ne_colon_semi (c : Char) (h : isAlphaNumUnderscore c = true) :
    c ≠ ':' ∧ c ≠ ';' := by
  constructor
  · intro heq
    subst heq
    exact absurd h (by decide)
  · intro heq
    subst heq
    exact absurd h (by decide)

/-- A valid identifier is nonempty and consists of alphanumeric or
underscore characters only. -/
theorem validIdent_chars (s : Str) (h : isValidIdentifier s = true) :
    s ≠ [] ∧ ∀ c ∈ s, isAlphaNumUnderscore c = true := by
  cases s with
  | nil => cases h
  | cons c rest =>
    simp only [isValidIdentifier, Bool.and_eq_true, List.all_eq_true] at h
    refine ⟨by simp, fun x hx => ?_⟩
    rcases List.mem_cons.mp hx with rfl | hx
    · exact alpha_anu x h.1
    · exact h.2 x hx

theorem parseTypeName_ne_unset (t : Str) (api : Nat) (ty : VSPropType)
    (h : parseTypeName t api = some ty) : ty ≠ .ptUnset := by
  unfold parseTypeName at h
  split_ifs at h <;> cases h <;> decide

/-- What a successful `parseArg` guarantees about its result: the name was
validated, `empty` implies array, and the type came from the type table. -/
theorem parseArg_props (parts : List Str) (api : Nat) (a : FilterArgument)
    (h : parseArg parts api = some a) :
    isValidIdentifier a.name = true ∧ (a.empty = true → a.arr = true) ∧
      a.type ≠ .ptUnset := by
  unfold parseArg at h
  cases parts with
  | nil => cases h
  | cons argName parts1 =>
    cases parts1 with
    | nil => cases h
    | cons typeName0 mods =>
      simp only at h
      cases hsa : stripArray typeName0 with
      | mk tn arr =>
        rw [hsa] at h
        simp only at h
        cases hpt : parseTypeName tn api with
        | none => rw [hpt] at h; cases h
        | some ty =>
          rw [hpt] at h
          simp only at h
          cases hm : parseModifiers false false mods with
          | none => rw [hm] at h; cases h
          | some om =>
            rw [hm] at h
            obtain ⟨op, em⟩ := om
            simp only at h
            by_cases hv : isValidIdentifier argName = true
            · rw [if_neg (by simpa using hv)] at h
              by_cases hne : em = true ∧ ¬ arr = true
              · rw [if_pos hne] at h; cases h
              · rw [if_neg hne] at h
                obtain rfl : FilterArgument.mk argName ty arr em op = a := by
                  simpa using h
                refine ⟨hv, fun hemp => ?_, parseTypeName_ne_unset tn api ty hpt⟩
                by_contra harr
                exact hne ⟨hemp, by simpa using harr⟩
            · rw [if_pos (by simpa using hv)] at h; cases h

/-- `parseAllArgs` guarantees `parseArg_props` for every member. -/
theorem parseAllArgs_props (argList : List Str) (api : Nat) (l : List FilterArgument)
    (h : parseAllArgs argList api = some l) :
    ∀ a ∈ l, isValidIdentifier a.name = true ∧ (a.empty = true → a.arr = true) ∧
      a.type ≠ .ptUnset := by
  induction argList generalizing l with
  | nil =>
    obtain rfl : [] = l := by simpa [parseAllArgs] using h
    intro a ha
    cases ha
  | cons x rest ih =>
    rw [show parseAllArgs (x :: rest) api =
      (match parseArg (splitNE ':' x) api with
       | none => none
       | some fa =>
         match parseAllArgs rest api with
         | none => none
         | some fas => some (fa :: fas)) from rfl] at h
    cases hp : parseArg (splitNE ':' x) api with
    | none => rw [hp] at h; cases h
    | some fa =>
      rw [hp] at h
      simp only at h
      cases hr : parseAllArgs rest api with
      | none => rw [hr] at h; cases h
      | some fas =>
        rw [hr] at h
        obtain rfl : fa :: fas = l := by simpa using h
        intro a ha
        rcases List.mem_cons.mp ha with rfl | ha
        · exact parseArg_props _ api a hp
        · exact ih fas hr a ha

/-- Splitting the emitted modifier suffix on `:`. -/
theorem splitNE_colon_mods (X : Str) (hX : X ≠ []) (hXc : ∀ c ∈ X, c ≠ ':') (op em : Bool) :
    splitNE ':' (X ++ ((if op = true then ":opt".data else []) ++
        (if em = true then ":empty".data else []))) =
      X :: ((if op = true then ["opt".data] else []) ++
        (if em = true then ["empty".data] else [])) := by
  cases op with
  | false =>
    cases em with
    | false =>
      show splitNE ':' (X ++ ([] ++ [])) = X :: ([] ++ [])
      rw [List.nil_append, List.append_nil]
      exact splitNE_token_single ':' X hX hXc
    | true =>
      show splitNE ':' (X ++ ([] ++ ":empty".data)) = X :: ([] ++ ["empty".data])
      rw [List.nil_append, List.nil_append]
      show splitNE ':' (X ++ ':' :: "empty".data) = X :: ["empty".data]
      rw [splitNE_token_cons ':' X _ hX hXc]
      rw [show splitNE ':' "empty".data = ["empty".data] from by decide]
  | true =>
    cases em with
    | false =>
      show splitNE ':' (X ++ (":opt".data ++ [])) = X :: (["opt".data] ++ [])
      rw [List.append_nil, List.append_nil]
      show splitNE ':' (X ++ ':' :: "opt".data) = X :: ["opt".data]
      rw [splitNE_token_cons ':' X _ hX hXc]
      rw [show splitNE ':' "opt".data = ["opt".data] from by decide]
    | true =>
      show splitNE ':' (X ++ (":opt".data ++ ":empty".data)) =
        X :: (["opt".data] ++ ["empty".data])
      show splitNE ':' (X ++ ':' :: "opt:empty".data) = X :: ["opt".data, "empty".data]
      rw [splitNE_token_cons ':' X _ hX hXc]
      rw [show splitNE ':' "opt:empty".data = ["opt".data, "empty".data] from by decide]

/-- The emitted modifier tokens parse back to the same flags. -/
theorem parseModifiers_mods (op em : Bool) :
    parseModifiers false false ((if op = true then ["opt".data] else []) ++
      (if em = true then ["empty".data] else [])) = some (op, em) := by
  cases op <;> cases em <;> decide

/-- One argument of a V3-compatible type survives the
emit-then-parse round trip. -/
theorem roundtrip_arg_core (nm : Str) (ty : VSPropType) (ts : Str) (ar em op : Bool)
    (hname : isValidIdentifier nm = true)
    (hea : em = true → ar = true)
    (hemit : emitV3TypeName ty = some ts)
    (hts_ne : ts ≠ [])
    (hts_chars : ∀ c ∈ ts, c ≠ ':' ∧ c ≠ ';')
    (hparse : parseTypeName ts VAPOURSYNTH3_API_MAJOR = some ty)
    (hstrip : stripArray ts = (ts, false))
    (hstrip_arr : stripArray (ts ++ "[]".data) = (ts, true)) :
    ∃ inner, emitV3Arg ⟨nm, ty, ar, em, op⟩ = some (inner ++ [';']) ∧ inner ≠ [] ∧
      (∀ c ∈ inner, c ≠ ';') ∧
      parseArg (splitNE ':' inner) VAPOURSYNTH3_API_MAJOR = some ⟨nm, ty, ar, em, op⟩ := by
  obtain ⟨hnm_ne, hnm_chars⟩ := validIdent_chars nm hname
  have hnm_nc : ∀ c ∈ nm, c ≠ ':' := fun c hc => (anu_ne_colon_semi c (hnm_chars c hc)).1
  have hnm_ns : ∀ c ∈ nm, c ≠ ';' := fun c hc => (anu_ne_colon_semi c (hnm_chars c hc)).2
  have hX_ne : ts ++ (if ar = true then "[]".data else []) ≠ [] := by
    intro hX
    exact hts_ne (List.append_eq_nil.mp hX).1
  have hX_nc : ∀ c ∈ ts ++ (if ar = true then "[]".data else []), c ≠ ':' := by
    intro c hc
    rcases List.mem_append.mp hc with hc | hc
    · exact (hts_chars c hc).1
    · cases ar with
      | true =>
        have hall : ∀ x ∈ "[]".data, x ≠ ':' := by decide
        exact hall c (by simpa using hc)
      | false => simp at hc
  refine ⟨nm ++ ':' :: ((ts ++ (if ar = true then "[]".data else [])) ++
      ((if op = true then ":opt".data else []) ++ (if em = true then ":empty".data else []))),
    ?_, ?_, ?_, ?_⟩
  · simp only [emitV3Arg, hemit]
    simp [List.append_assoc, List.cons_append]
  · simp
  · intro c hc
    rcases List.mem_append.mp hc with hc | hc
    · exact hnm_ns c hc
    · rcases List.mem_cons.mp hc with rfl | hc
      · decide
      · rcases List.mem_append.mp hc with hc | hc
        · rcases List.mem_append.mp hc with hc | hc
          · exact (hts_chars c hc).2
          · cases ar with
            | true =>
              have hall : ∀ x ∈ "[]".data, x ≠ ';' := by decide
              exact hall c (by simpa using hc)
            | false => simp at hc
        · rcases List.mem_append.mp hc with hc | hc
          · cases op with
            | true =>
              have hall : ∀ x ∈ ":opt".data, x ≠ ';' := by decide
              exact hall c (by simpa using hc)
            | false => simp at hc
          · cases em with
            | true =>
              have hall : ∀ x ∈ ":empty".data, x ≠ ';' := by decide
              exact hall c (by simpa using hc)
            | false => simp at hc
  · rw [splitNE_token_cons ':' nm _ hnm_ne hnm_nc]
    rw [splitNE_colon_mods _ hX_ne hX_nc op em]
    simp only [parseArg]
    cases ar with
    | true =>
      rw [show (if (true : Bool) = true then "[]".data else ([] : Str)) = "[]".data from rfl]
      rw [hstrip_arr]
      dsimp only
      rw [hparse]
      dsimp only
      rw [parseModifiers_mods op em]
      dsimp only
      rw [if_neg (by simp [hname]), if_neg (by simp)]
    | false =>
      have hem : em = false := by
        cases em with
        | true => exact absurd (hea rfl) (by decide)
        | false => rfl
      subst hem
      rw [show (if (false : Bool) = true then "[]".data else ([] : Str)) = [] from rfl,
        List.append_nil]
      rw [hstrip]
      dsimp only
      rw [hparse]
      dsimp only
      rw [parseModifiers_mods op false]
      dsimp only
      rw [if_neg (by simp [hname]), if_neg (by simp)]

/-- The round trip for one argument of any V3-compatible type. -/
theorem roundtrip_arg (a : FilterArgument)
    (hname : isValidIdentifier a.name = true)
    (hea : a.empty = true → a.arr = true)
    (ht : a.type ≠ .ptUnset ∧ a.type ≠ .ptAudioNode ∧ a.type ≠ .ptAudioFrame) :
    ∃ inner, emitV3Arg a = some (inner ++ [';']) ∧ inner ≠ [] ∧ (∀ c ∈ inner, c ≠ ';') ∧
      parseArg (splitNE ':' inner) VAPOURSYNTH3_API_MAJOR = some a := by
  obtain ⟨nm, ty, ar, em, op⟩ := a
  cases ty with
  | ptUnset => exact absurd rfl ht.1
  | ptAudioNode => exact absurd rfl ht.2.1
  | ptAudioFrame => exact absurd rfl ht.2.2
  | ptInt =>
    exact roundtrip_arg_core nm .ptInt "int".data ar em op hname hea (by decide) (by decide)
      (by decide) (by decide) (by decide) (by decide)
  | ptFloat =>
    exact roundtrip_arg_core nm .ptFloat "float".data ar em op hname hea (by decide) (by decide)
      (by decide) (by decide) (by decide) (by decide)
  | ptData =>
    exact roundtrip_arg_core nm .ptData "data".data ar em op hname hea (by decide) (by decide)
      (by decide) (by decide) (by decide) (by decide)
  | ptVideoNode =>
    exact roundtrip_arg_core nm .ptVideoNode "clip".data ar em op hname hea (by decide)
      (by decide) (by decide) (by decide) (by decide) (by decide)
  | ptVideoFrame =>
    exact roundtrip_arg_core nm .ptVideoFrame "frame".data ar em op hname hea (by decide)
      (by decide) (by decide) (by decide) (by decide) (by decide)
  | ptFunction =>
    exact roundtrip_arg_core nm .ptFunction "func".data ar em op hname hea (by decide)
      (by decide) (by decide) (by decide) (by decide) (by decide)

/-- Emit-then-parse round trip for a whole argument list. -/
theorem getV3ArgString_roundtrip (l : List FilterArgument)
    (hprops : ∀ a ∈ l, isValidIdentifier a.name = true ∧ (a.empty = true → a.arr = true) ∧
      (a.type ≠ .ptUnset ∧ a.type ≠ .ptAudioNode ∧ a.type ≠ .ptAudioFrame)) :
    ∃ t, getV3ArgString l = some t ∧ parseArgString t VAPOURSYNTH3_API_MAJOR = some l := by
  induction l with
  | nil => exact ⟨[], rfl, rfl⟩
  | cons a rest ih =>
    have ha := hprops a (List.mem_cons_self a rest)
    obtain ⟨inner, hemit1, hinner_ne, hinner_ns, hparse1⟩ :=
      roundtrip_arg a ha.1 ha.2.1 ha.2.2
    obtain ⟨t, hemitr, hparser⟩ := ih (fun b hb => hprops b (List.mem_cons_of_mem a hb))
    refine ⟨(inner ++ [';']) ++ t, ?_, ?_⟩
    · rw [show getV3ArgString (a :: rest) =
        (match emitV3Arg a with
         | none => none
         | some s =>
           match getV3ArgString rest with
           | none => none
           | some t => some (s ++ t)) from rfl, hemit1]
      dsimp only
      rw [hemitr]
    · rw [show ((inner ++ [';']) ++ t : Str) = inner ++ ';' :: t from by
        rw [List.append_assoc, List.singleton_append]]
      unfold parseArgString
      rw [splitNE_token_cons ';' inner t hinner_ne hinner_ns]
      rw [show parseAllArgs (inner :: splitNE ';' t) VAPOURSYNTH3_API_MAJOR =
        (match parseArg (splitNE ':' inner) VAPOURSYNTH3_API_MAJOR with
         | none => none
         | some fa =>
           match parseAllArgs (splitNE ';' t) VAPOURSYNTH3_API_MAJOR with
           | none => none
           | some fas => some (fa :: fas)) from rfl, hparse1]
      dsimp only
      have : parseAllArgs (splitNE ';' t) VAPOURSYNTH3_API_MAJOR = some rest := hparser
      rw [this]

/-- C8 counterexample: `a:anode;` is a valid current-generation argument
string, but its parsed form cannot be re-emitted — `getV3ArgString`
has no spelling for audio types (the source asserts `false`) — so the
round trip fails for it. -/
theorem c8_counterexample :
    parseArgString "a:anode;".data 4 =
      some [⟨"a".data, .ptAudioNode, false, false, false⟩] ∧
    getV3ArgString [⟨"a".data, .ptAudioNode, false, false, false⟩] = none := by
  constructor
  · decide
  · decide

/-- C8 (amended): for every current-generation argument string whose
arguments all have V3-compatible types (no `anode`/`aframe`), re-emitting
the parsed list with `getV3ArgString` and parsing the result under the
legacy generation returns exactly the same argument list — same names,
types, and array/opt/empty modifiers. -/
theorem c8_arg_string_roundtrip (s : Str) (l : List FilterArgument)
    (hparse : parseArgString s 4 = some l)
    (hnoaudio : ∀ a ∈ l, a.type ≠ .ptAudioNode ∧ a.type ≠ .ptAudioFrame) :
    ∃ t, getV3ArgString l = some t ∧ parseArgString t VAPOURSYNTH3_API_MAJOR = some l := by
  apply getV3ArgString_roundtrip
  intro a ha
  have h1 := parseAllArgs_props (splitNE ';' s) 4 l hparse a ha
  exact ⟨h1.1, h1.2.1, h1.2.2, (hnoaudio a ha).1, (hnoaudio a ha).2⟩

/-- Witness for C8 (amended): the argument string `a:int;` parses, and its
re-emission parses back to the same single argument. -/
theorem c8_witness :
    ∃ t, getV3ArgString [⟨"a".data, .ptInt, false, false, false⟩] = some t ∧
      parseArgString t VAPOURSYNTH3_API_MAJOR =
        some [⟨"a".data, .ptInt, false, false, false⟩] :=
  c8_arg_string_roundtrip "a:int;".data [⟨"a".data, .ptInt, false, false, false⟩]
    (by decide) (by decide)

/-- C9: in every constructed pool the large-page flag is false, so
`allocateLargePage` always returns null, `allocateMemory` always produces
a header with the large flag clear recording the requested size, and such
blocks are freed via the standard aligned deallocator. -/
theorem c9_large_pages_disabled :
    mkMemoryUse.largePageEnabled = false ∧
    (∀ alignment bytes, allocateLargePage mkMemoryUse.largePageEnabled alignment bytes = none) ∧
    (∀ alignment bytes,
      (allocateMemory mkMemoryUse.largePageEnabled alignment bytes).large = false ∧
      (allocateMemory mkMemoryUse.largePageEnabled alignment bytes).size = bytes ∧
      freeMemory (allocateMemory mkMemoryUse.largePageEnabled alignment bytes) = .viaAlignedFree) := by
  refine ⟨rfl, fun alignment bytes => rfl, fun alignment bytes => ?_⟩
  simp [allocateMemory, allocateLargePage, freeMemory, mkMemoryUse]

/-- C7 counterexample: `setLimit(5)` then `setLimit(0)` leaves the limit
at 5, while "the last value passed to `setLimit` clamped to `SIZE_MAX`"
is 0; non-positive values are ignored, not clamped. -/
theorem c7_counterexample :
    getLimit (setMaxMemoryUse 0 (setMaxMemoryUse 5 mkMemoryUse.maxMemoryUse)) = 5 ∧
    specClampToSizeMax 0 = 0 ∧ (5 : Nat) ≠ 0 := by
  refine ⟨?_, by decide, by decide⟩
  have h5 : setMaxMemoryUse 5 mkMemoryUse.maxMemoryUse = 5 := by decide
  rw [h5]; decide

/-- C7 (amended): after any sequence of `setLimit` calls, `limit()` is the
value of the last call with `0 < bytes` and `(uint64_t)bytes ≤ SIZE_MAX`
(converted to `size_t`), or the initial limit when no call qualified;
out-of-range calls leave the limit unchanged. -/
theorem c7_limit_last_accepted (init : Nat) (calls : List Int) :
    getLimit (limitAfterCalls init calls) =
      (calls.filter acceptedLimit).foldl (fun _ b => b.toNat) init := by
  induction calls generalizing init with
  | nil => rfl
  | cons b rest ih =>
    show getLimit (limitAfterCalls (setMaxMemoryUse b init) rest) = _
    rw [ih]
    by_cases hb : acceptedLimit b = true
    · have hset : setMaxMemoryUse b init = b.toNat := by
        simp only [acceptedLimit, Bool.and_eq_true, decide_eq_true_eq] at hb
        simp [setMaxMemoryUse, hb.1, hb.2]
      rw [hset, List.filter_cons_of_pos hb]
      rfl
    · have hset : setMaxMemoryUse b init = init := by
        simp only [acceptedLimit, Bool.and_eq_true, decide_eq_true_eq, not_and_or] at hb
        rcases hb with hb | hb <;> simp [setMaxMemoryUse] <;> intro h1 h2 <;> omega
      rw [hset, List.filter_cons_of_neg (by simpa using hb)]

/-- C6: for an audio node output with a valid format and sample rate,
creation fails when `numSamples` exceeds `INT_MAX * 3072`, and otherwise
the computed frame count is the ceiling of `numSamples / 3072`, i.e.
`(numSamples + 3071) / 3072`. -/
theorem c6_audio_frame_count (numSamples sampleRate : Int) (hrate : 1 ≤ sampleRate) :
    (numSamples > intMax * (VS_AUDIO_FRAME_SAMPLES : Int) →
      audioNodeNumFrames true numSamples sampleRate = none) ∧
    (1 ≤ numSamples → numSamples ≤ intMax * (VS_AUDIO_FRAME_SAMPLES : Int) →
      audioNodeNumFrames true numSamples sampleRate =
          some ((numSamples + 3071) / 3072) ∧
        3072 * ((numSamples + 3071) / 3072 - 1) < numSamples ∧
        numSamples ≤ 3072 * ((numSamples + 3071) / 3072)) := by
  constructor
  · intro hbig
    have hpos : ¬ (numSamples < 1 ∨ sampleRate < 1) := by
      simp only [intMax, VS_AUDIO_FRAME_SAMPLES] at hbig
      push_cast at hbig
      omega
    simp [audioNodeNumFrames, hpos, hbig]
  · intro h1 h2
    have hpos : ¬ (numSamples < 1 ∨ sampleRate < 1) := by omega
    have hle : ¬ (numSamples > intMax * (VS_AUDIO_FRAME_SAMPLES : Int)) := by omega
    have hle' : ¬ numSamples > intMax * ((VS_AUDIO_FRAME_SAMPLES : Nat) : Int) := hle
    refine ⟨?_, ?_, ?_⟩
    · simp only [audioNodeNumFrames, if_neg (by decide : ¬ ¬ (true = true)), if_neg hpos,
        if_neg hle', Option.some.injEq]
      norm_num [VS_AUDIO_FRAME_SAMPLES]
      congr 1
      ring
    · omega
    · omega

/-- Witness for C6 at `numSamples = 5000`, `sampleRate = 48000`: two
frames, and 2 is the ceiling of `5000 / 3072`. -/
theorem c6_witness :
    audioNodeNumFrames true 5000 48000 = some (((5000 : Int) + 3071) / 3072) ∧
    (3072 : Int) * (((5000 : Int) + 3071) / 3072 - 1) < 5000 ∧
    (5000 : Int) ≤ 3072 * (((5000 : Int) + 3071) / 3072) :=
  (c6_audio_frame_count 5000 48000 (by decide)).2 (by decide) (by decide)

/-- The source's `isValidIdentifier` decides exactly the spec's regular
expression `[A-Za-z][A-Za-z0-9_]*`. -/
theorem isValidIdentifier_iff_regex (s : Str) :
    isValidIdentifier s = true ↔ matchesIdentRegex s := by
  cases s with
  | nil => simp [isValidIdentifier, matchesIdentRegex]
  | cons c rest =>
    simp only [isValidIdentifier, matchesIdentRegex, Bool.and_eq_true, List.all_eq_true,
      isAlpha, isAlphaNumUnderscore, Bool.or_eq_true, decide_eq_true_eq, List.head!_cons,
      List.tail_cons, ne_eq, reduceCtorEq, not_false_iff, true_and]
    constructor
    · rintro ⟨h1, h2⟩
      refine ⟨by tauto, fun x hx => ?_⟩
      rcases h2 x hx with h | h | h | h <;> tauto
    · rintro ⟨h1, h2⟩
      refine ⟨by tauto, fun x hx => ?_⟩
      rcases h2 x hx with h | h | h | h <;> tauto

/-- C5 counterexample: registering the name `a` — which matches
`[A-Za-z][A-Za-z0-9_]*` — on a writable plugin fails anyway, because the
name is already registered. (Likewise, a read-only plugin or a malformed
argument string makes registration of a regex-matching name fail.) -/
theorem c5_counterexample :
    registerFunction false ["a".data] "a".data [] [] 4 = false ∧
    matchesIdentRegex "a".data := by
  constructor
  · decide
  · decide

/-- C5 (amended): `registerFunction(name, …)` succeeds only if `name`
matches `[A-Za-z][A-Za-z0-9_]*`; and when the plugin is writable, the name
is not already registered, and the argument and return spec strings parse,
it succeeds if and only if `name` matches the regular expression. -/
theorem c5_register_identifier_rule (readOnly : Bool) (existing : List Str)
    (name argStr retStr : Str) (apiMajor : Nat) :
    (registerFunction readOnly existing name argStr retStr apiMajor = true →
      matchesIdentRegex name) ∧
    (readOnly = false → name ∉ existing →
      (∃ l, parseArgString argStr apiMajor = some l) →
      (∃ l, parseArgString retStr apiMajor = some l) →
      (registerFunction readOnly existing name argStr retStr apiMajor = true ↔
        matchesIdentRegex name)) := by
  constructor
  · intro h
    rw [← isValidIdentifier_iff_regex]
    by_contra hv
    simp only [registerFunction, hv, not_false_iff, if_true] at h
    split at h <;> simp_all
  · rintro hro hmem ⟨la, hla⟩ ⟨lr, hlr⟩
    rw [← isValidIdentifier_iff_regex]
    subst hro
    constructor
    · intro h
      by_contra hv
      simp [registerFunction, hv] at h
    · intro hv
      simp [registerFunction, hv, hmem, hla, hlr]

/-- Witness for C5 (amended): on a writable plugin with no conflicting
name and well-formed spec strings, registering `abc` succeeds. -/
theorem c5_witness :
    matchesIdentRegex "abc".data ∧
    registerFunction false [] "abc".data [] [] 4 = true :=
  ⟨by decide,
   ((c5_register_identifier_rule false [] "abc".data [] [] 4).2 rfl (by simp)
      ⟨[], by decide⟩ ⟨[], by decide⟩).mpr (by decide)⟩

